import Mathlib

/-!
Verification of the AnalysisServer protocol engine (analysis_server package).

Python strings are modelled as `List Char`; stateful wrappers become pure
functions over explicit state; fallible Python code (exceptions) returns
`Option`/`Except`.  Numeric values are `Int`/`Nat`/`ℚ`; IEEE-754 binary64
values are modelled as dyadic rationals where a claim needs them.
-/

/-- Convert a Lean string literal into the `List Char` model of a Python str. -/
def lstr (s : String) : List Char := s.data

/-- Python `s.split(sep)` helper: chars strictly before the first `sep`
together with the tail fields after each `sep` occurrence. -/
def splitCS (sep : Char) : List Char → List Char × List (List Char)
  | [] => ([], [])
  | a :: r =>
    let (h, t) := splitCS sep r
    if a = sep then ([], h :: t) else (a :: h, t)

/-- Python `s.split(sep)` (single-char separator, no maxsplit): always a
nonempty list of fields; `''.split(sep) == ['']`. -/
def splitOnC (sep : Char) (s : List Char) : List (List Char) :=
  (splitCS sep s).1 :: (splitCS sep s).2

/-- Python `sep.join(parts)` for the two-char separator `', '` used by the
encoders (`', '.join(...)`). -/
def joinCS : List (List Char) → List Char
  | [] => []
  | [p] => p
  | p :: ps => p ++ ',' :: ' ' :: joinCS ps

/-- Chars before the first occurrence of `sep`, and (when `sep` occurs) the
chars after it.  `s.split(sep, 1)[0]` is the first component; indexing
`[1]` of the split corresponds to the second (none = IndexError). -/
def breakFirst (sep : Char) : List Char → List Char × Option (List Char)
  | [] => ([], none)
  | a :: r =>
    if a = sep then ([], some r)
    else
      let (b, o) := breakFirst sep r
      (a :: b, o)

/-- Python `s.partition(sep)`, with the middle field replaced by a `Bool`
recording whether `sep` occurred (`(before, found, after)`). -/
def pypartition (sep : Char) (s : List Char) : List Char × Bool × List Char :=
  match breakFirst sep s with
  | (b, none) => (b, false, [])
  | (b, some a) => (b, true, a)

/-- Python `s.rpartition(sep)`: split at the last occurrence of `sep`;
`('', False, s)` when `sep` does not occur. -/
def pyRPartition (sep : Char) (s : List Char) : List Char × Bool × List Char :=
  match breakFirst sep s.reverse with
  | (b, none) => ([], false, b.reverse)
  | (b, some a) => (a.reverse, true, b.reverse)

/-- Python `s.strip(cs)`: drop the chars satisfying `p` from both ends. -/
def stripEnds (p : Char → Bool) (s : List Char) : List Char :=
  ((s.dropWhile p).reverse.dropWhile p).reverse

/-- Strip blanks (models Python `str.strip()` / the whitespace stripping done
by `int()` and `float()`; only the space character appears in the protocol). -/
def stripWS (s : List Char) : List Char := stripEnds (· = ' ') s

/-- Strip blanks and double quotes (Python `val.strip(' "')`). -/
def stripWSQ (s : List Char) : List Char := stripEnds (fun c => c = ' ' ∨ c = '"') s

/-- Decimal digit character for `d < 10` (`'0'..'9'`). -/
def digitCh : Nat → Char
  | 0 => '0' | 1 => '1' | 2 => '2' | 3 => '3' | 4 => '4'
  | 5 => '5' | 6 => '6' | 7 => '7' | 8 => '8' | _ => '9'

/-- Decimal digits of `n`, most significant first, via explicit fuel so that
the definition is structurally recursive (fuel `n + 1` always suffices). -/
def natToStrAux : Nat → Nat → List Char
  | 0, _ => []
  | fuel + 1, n =>
    if n < 10 then [digitCh n]
    else natToStrAux fuel (n / 10) ++ [digitCh (n % 10)]

/-- Decimal representation of a natural number (Python `'%d' % n`, `n ≥ 0`). -/
def natToStr (n : Nat) : List Char := natToStrAux (n + 1) n

/-- Decimal representation of an integer (Python `'%d' % n`). -/
def intToStr (z : Int) : List Char :=
  if z < 0 then '-' :: natToStr z.natAbs else natToStr z.toNat

/-- Parse a nonempty all-digit string as a natural number. -/
def parseDigits (s : List Char) : Option Nat :=
  if s ≠ [] ∧ s.all Char.isDigit then
    some (s.foldl (fun a c => 10 * a + (c.toNat - 48)) 0)
  else none

/-- Python `int(s)`: strip whitespace, optional sign, then decimal digits;
anything else raises `ValueError` (`none`). -/
def pyParseInt (s : List Char) : Option Int :=
  match stripWS s with
  | [] => none
  | c :: ds =>
    if c = '-' then (parseDigits ds).map (fun n => -(n : Int))
    else if c = '+' then (parseDigits ds).map (fun n => (n : Int))
    else (parseDigits (c :: ds)).map (fun n => (n : Int))

/-- Sequence a list of optional values (models a Python comprehension whose
body may raise: the first failure aborts the whole expression). -/
def seqOpt : List (Option α) → Option (List α)
  | [] => some []
  | none :: _ => none
  | some a :: os => (seqOpt os).map (fun as => a :: as)

/-!
## arrwrapper.py — the module-level array codec

`array2str` / `str2array` (src/analysis_server/arrwrapper.py lines 6-37).
A rectangular numpy array is modelled by its shape together with its
row-major flat element list; numpy's `value.flat` iterates in row-major
order and `reshape` re-interprets a flat list in row-major order, so the
(shape, flat) pair is exactly the information the codec transports.
The element formatter `fmtE` stands for the `fmt % val` conversion
(`'%d'` for int entries — `intToStr`; `'%.16g'` for float entries) and
`parseE` for the `dtype(v)` conversion applied to each field.
-/

/-- Source `array2str(value, fmt)`:
`'bounds[%s] {%s}' % (', '.join('%d' % dim), ', '.join(fmt % val))`. -/
def array2str (fmtE : α → List Char) (shape : List Nat) (flat : List α) : List Char :=
  lstr "bounds[" ++ joinCS (shape.map natToStr) ++ lstr "] \x7b"
    ++ joinCS (flat.map fmtE) ++ ['\x7d']

/-- Source `str2array(s, dtype)`: the shape is
`tuple(int(v) for v in s.split(']', 1)[0].split('[', 1)[1].split(','))`, the
values are `[dtype(v) for v in s.split('{', 1)[1].split('}', 1)[0].split(',')]`
and the result is `numpy.array(vals, dtype).reshape(shape)`.  A missing
delimiter is an IndexError, a bad field a ValueError, and `reshape` raises
unless the element count equals the product of the (nonnegative) dims —
all modelled as `none`.  (numpy's `-1` dim inference is not modelled; the
encoder never produces a negative dim.) -/
def str2array (parseE : List Char → Option α) (s : List Char) :
    Option (List Nat × List α) :=
  match (breakFirst '[' (breakFirst ']' s).1).2 with
  | none => none
  | some dimsStr =>
    match seqOpt ((splitOnC ',' dimsStr).map pyParseInt) with
    | none => none
    | some dimsZ =>
      match (breakFirst '\x7b' s).2 with
      | none => none
      | some rest =>
        match seqOpt ((splitOnC ',' (breakFirst '\x7d' rest).1).map parseE) with
        | none => none
        | some vals =>
          if dimsZ.all (0 ≤ ·) ∧ ((dimsZ.map Int.toNat).prod = vals.length) then
            some (dimsZ.map Int.toNat, vals)
          else none

/-!
## arrwrapper.py — ArrayBase.get / ArrayBase.set (the `value` attribute)

`ArrayBase.get` (lines 93-157) formats the `value`/`<name>` attribute: for a
true array of rank > 1 it uses the `bounds[...] {...}` form, otherwise a
plain `', '`-joined list.  `ArrayBase.set` (lines 172-216) parses a
`bounds[...]` prefix (dims, then the `{...}` data, each field
`.strip(' "')`-ed) and reshapes, or builds a 1-D array from a comma list.
As above the array is (shape, row-major flat elements), `fmtE`/`parseE`
stand for the element conversions of the wrapper's `typ`.
-/

/-- The `attr == 'value'` branch of `ArrayBase.get` for an `is_array` wrapper:
`'bounds[%s] {%s}'` when `len(value.shape) > 1`, else `', '.join(...)`. -/
def arrayGetValue (fmtE : α → List Char) (shape : List Nat) (flat : List α) :
    List Char :=
  if shape.length > 1 then
    lstr "bounds[" ++ joinCS (shape.map natToStr) ++ lstr "] \x7b"
      ++ joinCS (flat.map fmtE) ++ ['\x7d']
  else joinCS (flat.map fmtE)

/-- The `attr == 'value'` branch of `ArrayBase.set` for an `is_array` wrapper:
on a `'bounds['` prefix, parse `valstr[7:].partition(']')` dims and the
`{...}` data (each field `.strip(' "')`-ed) and reshape — `numpy.reshape`
raises unless the element count equals the product of the dims; without the
prefix, a 1-D array from the comma-separated fields.  `none` models the
exception paths (no value reaches `sysproxy.set`). -/
def arrayBaseSetValue (parseE : List Char → Option α) (valstr : List Char) :
    Option (List Nat × List α) :=
  if (lstr "bounds[").isPrefixOf valstr then
    let rest0 := valstr.drop 7
    let (dimsStr, _, rest1) := pypartition ']' rest0
    let (_, _, rest2) := pypartition '\x7b' rest1
    let (dataStr, _, _) := pypartition '\x7d' rest2
    match seqOpt ((splitOnC ',' dimsStr).map (fun v => pyParseInt (stripWSQ v))),
          seqOpt ((splitOnC ',' dataStr).map (fun v => parseE (stripWSQ v))) with
    | some dimsZ, some vals =>
      if dimsZ.all (0 ≤ ·) ∧ ((dimsZ.map Int.toNat).prod = vals.length) then
        some (dimsZ.map Int.toNat, vals)
      else none
    | _, _ => none
  else
    match seqOpt ((splitOnC ',' valstr).map (fun v => parseE (stripWSQ v))) with
    | some vals => some ([vals.length], vals)
    | none => none

/-!
## compwrapper.py — ComponentWrapper._get_var_wrapper (path resolution)

Lines 76-116: resolution of an external dotted path against the configured
property table (`self._cfg.properties`, modelled as an association list from
external path to internal variable path).  The memoisation caches
(`_path_map`, `_wrappers`) only cache the result of this pure computation,
and wrapper construction itself is abstracted to the internal path: the
claim is about which (variable, attribute) pair a path resolves to.
-/

/-- Association-list lookup (Python `dict` access / `in` test). -/
def lookupTab (tab : List (List Char × List Char)) (k : List Char) :
    Option (List Char) :=
  match tab with
  | [] => none
  | (k', v) :: rest => if k' = k then some v else lookupTab rest k

/-- Source `ComponentWrapper._get_var_wrapper`, reduced to the resolution of
`ext_path` into `(internal path, attribute)`: try the full path as a
property name; else `rpartition('.')` off the rightmost segment and retry,
the attribute being `ext_attr or 'value'`; else
`RuntimeError('no such property <%s>.' % ext_path)`. -/
def getVarWrapperResolve (props : List (List Char × List Char))
    (extPath : List Char) : Except (List Char) (List Char × List Char) :=
  match lookupTab props extPath with
  | some intPath => .ok (intPath, lstr "value")
  | none =>
    let (epath, _, extAttr) := pyRPartition '.' extPath
    match lookupTab props epath with
    | some intPath =>
      .ok (intPath, if extAttr = [] then lstr "value" else extAttr)
    | none =>
      .error (lstr "no such property <" ++ extPath ++ lstr ">.")

/-!
## floatwrapper.py / intwrapper.py — set() error classification

`FloatWrapper.set` (lines 42-66) and `IntWrapper.set` (lines 41-65)
distinguish a write to `value` (stored), a write to a read-only attribute
(`RuntimeError('cannot set <path>.')`) and an unknown attribute
(`RuntimeError('no such property <path>.')`).  The tuples of read-only
attribute names are transcribed exactly as the Python source spells them:
in both files a missing comma concatenates two adjacent string literals
(`'enumValues' 'format'` in floatwrapper.py, `'enumValues' 'hasLowerBound'`
in intwrapper.py), so the tuple holds the single element
`'enumValuesformat'` (resp. `'enumValueshasLowerBound'`).
-/

/-- Outcome of a wrapper `set` call: the value string is stored (the final
conversion by `float()`/`int()` and `sysproxy.set` is outside this claim),
or one of the two `RuntimeError` kinds is raised. -/
inductive SetOutcome
  | stored (valstr : List Char)
  | cannotSet (path : List Char)
  | noSuchProperty (path : List Char)
  deriving DecidableEq, Repr

/-- Source `FloatWrapper.set(attr, path, valstr, gzipped)`:
`valstr.strip('"')` first; `attr == 'value'` stores; the read-only tuple is
`('valueStr', 'description', 'enumAliases', 'enumValuesformat',
'hasLowerBound', 'lowerBound', 'hasUpperBound', 'upperBound', 'units')`
(sic — source lines 61-63 lack a comma between `'enumValues'` and
`'format'`); anything else is `no such property`. -/
def floatWrapperSet (attr path valstr : List Char) : SetOutcome :=
  let v := stripEnds (· = '"') valstr
  if attr = lstr "value" then .stored v
  else if attr ∈ [lstr "valueStr", lstr "description", lstr "enumAliases",
                  lstr "enumValuesformat", lstr "hasLowerBound",
                  lstr "lowerBound", lstr "hasUpperBound", lstr "upperBound",
                  lstr "units"] then .cannotSet path
  else .noSuchProperty path

/-- Source `FloatWrapper.list_properties()` (lines 68-80), verbatim lines. -/
def floatWrapperListProps : List (List Char) :=
  [lstr "description (type=java.lang.String) (access=g)",
   lstr "enumAliases (type=java.lang.String[0]) (access=g)",
   lstr "enumValues (type=double[0]) (access=g)",
   lstr "format (type=java.lang.String) (access=g)",
   lstr "hasLowerBound (type=boolean) (access=g)",
   lstr "hasUpperBound (type=boolean) (access=g)",
   lstr "lowerBound (type=double) (access=g)",
   lstr "units (type=java.lang.String) (access=g)",
   lstr "upperBound (type=double) (access=g)",
   lstr "value (type=double) (access=sg)",
   lstr "valueStr (type=java.lang.String) (access=g)"]

/-- Source `IntWrapper.set(attr, path, valstr, gzipped)` for a variable named
`name`: `attr == name or attr == 'value'` stores; the read-only tuple is
`('valueStr', 'description', 'enumAliases', 'enumValueshasLowerBound',
'lowerBound', 'hasUpperBound', 'upperBound', 'units')` (sic — source lines
60-62 lack a comma between `'enumValues'` and `'hasLowerBound'`). -/
def intWrapperSet (name attr path valstr : List Char) : SetOutcome :=
  let v := stripEnds (· = '"') valstr
  if attr = name ∨ attr = lstr "value" then .stored v
  else if attr ∈ [lstr "valueStr", lstr "description", lstr "enumAliases",
                  lstr "enumValueshasLowerBound", lstr "lowerBound",
                  lstr "hasUpperBound", lstr "upperBound",
                  lstr "units"] then .cannotSet path
  else .noSuchProperty path

/-- Source `IntWrapper.list_properties()` (lines 67-78), verbatim lines. -/
def intWrapperListProps : List (List Char) :=
  [lstr "description (type=java.lang.String) (access=g)",
   lstr "enumAliases (type=java.lang.String[0]) (access=g)",
   lstr "enumValues (type=long[0]) (access=g)",
   lstr "hasLowerBound (type=boolean) (access=g)",
   lstr "hasUpperBound (type=boolean) (access=g)",
   lstr "lowerBound (type=long) (access=g)",
   lstr "units (type=java.lang.String) (access=g)",
   lstr "upperBound (type=long) (access=g)",
   lstr "value (type=long) (access=sg)",
   lstr "valueStr (type=java.lang.String) (access=g)"]

/-!
## stream.py — the cooked/raw mode property

`Stream._set_raw` (lines 45-56): assigning the `raw` property succeeds only
for the cooked-to-raw transition; every other assignment (including
raw-to-raw) raises `ValueError("Can only transition from 'cooked' to
'raw'")`.
-/

/-- Source `Stream._set_raw(value)` on a stream whose current mode is `raw`:
`ok` carries the new mode, `error` the `ValueError` message. -/
def streamSetRaw (raw value : Bool) : Except (List Char) Bool :=
  if ¬raw ∧ value then .ok true
  else .error (lstr "Can only transition from 'cooked' to 'raw'")

/-- The state actually reached by an assignment attempt (an exception leaves
the stream's `_raw` field unchanged). -/
def streamSetRawStep (raw value : Bool) : Bool :=
  match streamSetRaw raw value with
  | .ok b => b
  | .error _ => raw

/-!
## server.py — _Handler request dispatch and per-command syntax checks

The dispatch loop (`_Handler.handle`, lines 309-370) splits the request on
whitespace, looks the first token up in the static `_COMMANDS` table
(lines 1236-1292) and calls the handler under a `try/except` that turns any
escaping exception into an `Exception: ...` error reply.  A missing verb is
answered `'command <%s> not recognized' % req.strip()`.  The reply a
handler produces *before* handing work to a worker is modelled by
`HandlerReply`; handlers whose bodies the claims do not touch are
abstracted as `.proceed`.
-/

/-- What the dispatch layer sends for one request: an `_send_error` text
(wire form `ERROR: <msg>`), an `_send_exc` reply for an exception escaping
the handler (wire form `ERROR: Exception: <repr>`, modelled by the
exception's class name), a direct `_send_reply`, or `proceed` — the handler
goes on to resolve a proxy / enqueue work. -/
inductive HandlerReply
  | err (msg : List Char)
  | exc (excName : List Char)
  | reply (msg : List Char)
  | proceed
  deriving DecidableEq, Repr

/-- Helper for `splitWSRuns`: `acc` is the current field, reversed. -/
def splitWSAux : List Char → List Char → List (List Char)
  | [], acc => if acc = [] then [] else [acc.reverse]
  | c :: r, acc =>
    if c = ' ' then
      if acc = [] then splitWSAux r [] else acc.reverse :: splitWSAux r []
    else splitWSAux r (c :: acc)

/-- Python `str.split()` with no argument: split on whitespace runs,
discarding empty fields. -/
def splitWSRuns (s : List Char) : List (List Char) :=
  splitWSAux s []

/-- The keys of the `_COMMANDS` table exactly as registered in
server.py lines 1236-1292 (`setHierarchy`, `setRunQueue`, `getHierarchy`,
`addProxyClients`, `setDictionary`, ... are commented out there). -/
def commandVerbs : List (List Char) :=
  [lstr "d", lstr "describe", lstr "end", lstr "execute",
   lstr "getBranchesAndTags", lstr "getDirectTransfer", lstr "get",
   lstr "getIcon", lstr "getLicense", lstr "getStatus", lstr "getSysInfo",
   lstr "getVersion", lstr "hb", lstr "heartbeat", lstr "help", lstr "h",
   lstr "invoke", lstr "la", lstr "lav", lstr "lc", lstr "lg",
   lstr "listArrayValues", lstr "listCategories", lstr "listComponents",
   lstr "listGlobals", lstr "listMethods", lstr "lm", lstr "listMonitors",
   lstr "lo", lstr "l", lstr "list", lstr "ls", lstr "listProperties",
   lstr "listValues", lstr "lv", lstr "listValuesURL", lstr "lvu",
   lstr "monitor", lstr "move", lstr "mv", lstr "rename", lstr "rn",
   lstr "ps", lstr "quit", lstr "setMode", lstr "set", lstr "start",
   lstr "versions", lstr "v", lstr "x"]

/-- Source `_Handler._list_values` (lines 1007-1023): `len(args) > 1` is the only
syntax check; with zero arguments `args[0]` raises an `IndexError`, which
the dispatch loop surfaces as an exception reply. -/
def listValuesCmd (args : List (List Char)) : HandlerReply :=
  if args.length > 1 then
    .err (lstr "invalid syntax. Proper syntax:\nlistValues,lv [object]")
  else
    match args with
    | [] => .exc (lstr "IndexError")
    | _ :: _ => .proceed

/-- Source `_Handler._get` (lines 597-612): `len(args) != 1` is rejected with the
canonical usage message, then the handler proceeds to `_get_proxy`. -/
def getCmd (args : List (List Char)) : HandlerReply :=
  if args.length ≠ 1 then
    .err (lstr "invalid syntax. Proper syntax:\nget <object.property>")
  else .proceed

/-- Source `_Handler._end` syntax check (lines 547-557). -/
def endCmdCheck (args : List (List Char)) : HandlerReply :=
  if args.length ≠ 1 then
    .err (lstr "invalid syntax. Proper syntax:\nend <object>")
  else .proceed

/-- Source `_Handler._set` (lines 1120-1133): no syntax validation at all — the
request is re-partitioned (`self._req.partition(' ')`, `lhs.partition('=')`,
`lhs.strip().partition('.')`) and the instance name is looked up; the only
error this handler itself can send is `no such object: <name>`. -/
def setCmd (instNames : List (List Char)) (req : List Char) : HandlerReply :=
  let (_, _, assignment) := pypartition ' ' req
  let (lhs, _, _) := pypartition '=' assignment
  let (name, _, _) := pypartition '.' (stripWS lhs)
  if name ∈ instNames then .proceed
  else .err (lstr "no such object: <" ++ name ++ lstr ">")

/-- Source `_Handler._move` (lines 1075-1087): arity 2 is required; a well-formed
request then raises `NotImplementedError('move')`, which the dispatch loop
converts into an exception reply. -/
def moveCmd (args : List (List Char)) : HandlerReply :=
  if args.length ≠ 2 then
    .err (lstr "invalid syntax. Proper syntax:\nmove,rename,mv,rn <from> <to>")
  else .exc (lstr "NotImplementedError: move")

/-- Source `_Handler._get_icon` (lines 668-684): arity 1, then `_get_component`
(`compKnown` abstracts whether the component path resolves; on failure
`_get_component` itself sends the `component <...> does not match` error),
then `NotImplementedError('getIcon')`. -/
def getIconCmd (compKnown : Bool) (args : List (List Char)) : HandlerReply :=
  if args.length ≠ 1 then
    .err (lstr "invalid syntax. Proper syntax:\ngetIcon <analysisComponent>")
  else if compKnown then .exc (lstr "NotImplementedError: getIcon")
  else .err (lstr "component does not match a known component")

/-- Source `_Handler._set_mode` (lines 1148-1161): syntax `setMode raw`, then
`self._raw = True; self._stream.raw = True` — the property assignment
raises on an already-raw stream and the dispatch loop surfaces the
`ValueError`.  Returns the reply and the stream's new `raw` flag. -/
def setModeCmd (streamRaw : Bool) (args : List (List Char)) :
    HandlerReply × Bool :=
  if args.length ≠ 1 ∨ args ≠ [lstr "raw"] then
    (.err (lstr "invalid syntax. Proper syntax:\nsetMode raw"), streamRaw)
  else
    match streamSetRaw streamRaw true with
    | .ok b => (.proceed, b)
    | .error _ => (.exc (lstr "ValueError"), streamRaw)

/-- One step of the dispatch loop (`_Handler.handle`, lines 347-365) for the
purposes of verb recognition: split the request, look the verb up in
`_COMMANDS`, answer `command <req.strip()> not recognized` for an unknown
verb; the behaviour of the individual command bodies is covered by the
per-command functions above (`runVerb` wires in the ones the claims need
and abstracts the rest as `.proceed`). -/
def runVerb (compKnown : Bool) (instNames : List (List Char))
    (req : List Char) (verb : List Char) (args : List (List Char)) :
    HandlerReply :=
  if verb = lstr "listValues" ∨ verb = lstr "lv" then listValuesCmd args
  else if verb = lstr "get" then getCmd args
  else if verb = lstr "end" then endCmdCheck args
  else if verb = lstr "set" then setCmd instNames req
  else if verb ∈ [lstr "move", lstr "mv", lstr "rename", lstr "rn"] then
    moveCmd args
  else if verb = lstr "getIcon" then getIconCmd compKnown args
  else .proceed

/-- The dispatch loop body for one nonempty request. -/
def handleRequest (compKnown : Bool) (instNames : List (List Char))
    (req : List Char) : HandlerReply :=
  match splitWSRuns req with
  | [] => .exc (lstr "IndexError")
  | verb :: rest =>
    if verb ∈ commandVerbs then runVerb compKnown instNames req verb rest
    else .err (lstr "command <" ++ stripWS req ++ lstr "> not recognized")

/-!
## server.py — _Handler._start (instance creation)

Lines 1163-1203: after the arity check and `_get_component`, a name already
present in `self._instance_map` is rejected with
`'Name already in use: "%s"' % name` before any instance is created; the
map is left untouched.  The component registry is a list of known
component-path keys; `_get_component` (lines 380-401) strips quotes and a
leading `/` and drops a `?version` suffix before the lookup.  A started
instance is abstracted to an identifier (`fresh`) standing for the new
`(ComponentWrapper, worker)` pair.
-/

/-- Source `_get_component` key normalisation:
`typ.strip('"').lstrip('/')`, then `name, _, version = typ.partition('?')`. -/
def componentKey (typ : List Char) : List Char :=
  (pypartition '?' ((stripEnds (· = '"') typ).dropWhile (· = '/'))).1

/-- Source `_Handler._start` for `args = [component, name]`: reply and resulting
instance map (associating instance names to abstract instance ids). -/
def startCmd (comps : List (List Char)) (instMap : List (List Char × Nat))
    (fresh : Nat) (component nm : List Char) :
    HandlerReply × List (List Char × Nat) :=
  if componentKey component ∈ comps then
    if (instMap.lookup nm).isSome then
      (.err (lstr "Name already in use: \"" ++ nm ++ lstr "\""), instMap)
    else
      (.reply (lstr "Object " ++ nm ++ lstr " started."),
       instMap ++ [(nm, fresh)])
  else
    (.err (lstr "component <" ++ component ++
           lstr "> does not match a known component"), instMap)

/-!
## Worker queue semantics (wrkpool.py is not under src/)

Modelled from the spec: the repository's `analysis_server/wrkpool.py`
(imported by server.py as `WorkerPool`) is not among the provided sources;
spec section 4.3 describes a worker as "a single-consumer queue + dedicated
execution thread" whose submitted units of work "execute strictly in
submission order", and section 5 states that `get`/`set`/`execute`/listing
operations against one instance are all enqueued to that instance's single
foreground worker.  A worker is therefore modelled as the FIFO processing
of its submitted operations against the instance's variable store.
-/

/-- A unit of work submitted to an instance's foreground worker, restricted
to the variable operations the claim observes. -/
inductive WkOp
  | setv (nm : List Char) (v : Int)
  | getv (nm : List Char)
  deriving DecidableEq, Repr

/-- Store update for `set` (the external capability's `set(name, value)`). -/
def setAssoc (st : List (List Char × Int)) (nm : List Char) (v : Int) :
    List (List Char × Int) :=
  match st with
  | [] => [(nm, v)]
  | (k, w) :: rest => if k = nm then (nm, v) :: rest else (k, w) :: setAssoc rest nm v

/-- Execute one unit of work: the new store and the observation the work
unit reports back (`some` of the read value for `get`, nothing for `set`). -/
def applyWkOp (st : List (List Char × Int)) : WkOp → List (List Char × Int) × Option Int
  | .setv nm v => (setAssoc st nm v, none)
  | .getv nm => (st, st.lookup nm)

/-- Modelled from the spec: FIFO execution of a worker's queue — the worker
thread dequeues and runs each submitted unit of work in submission order,
returning the final store and the per-operation observations in order. -/
def runWorker (st : List (List Char × Int)) :
    List WkOp → List (List Char × Int) × List (Option Int)
  | [] => (st, [])
  | op :: ops =>
    let (st', ob) := applyWkOp st op
    let (stF, obs) := runWorker st' ops
    (stF, ob :: obs)

/-- True when the work unit writes variable `nm`. -/
def writesVar (nm : List Char) : WkOp → Prop
  | .setv k _ => k = nm
  | .getv _ => False

instance (nm : List Char) (op : WkOp) : Decidable (writesVar nm op) := by
  cases op <;> simp [writesVar] <;> infer_instance

/-!
## varwrapper.py — _float2str and the float64 wire form

`_float2str(val)` is `'%.16g' % val` (varwrapper.py lines 38-45).  The
binary64 arithmetic and the C library's decimal conversion are not Python
source of this repository, so they are modelled from the spec: the spec
calls the canonical form "16 significant decimal digits (`%.16g`-
equivalent)".  A binary64 value is a dyadic rational `m * 2^k` with
`|m| < 2^53` (`float64Rep`); `%.16g` is correct rounding of the exact
value to 16 significant decimal digits, value-level (`fmtSig 16`, the
notation choice `1e2` vs `100` does not change the value read back); and
parsing a decimal string as a float64 is correct rounding of its exact
value to 53 significant bits (`parseFloat64`) — both with IEEE round half
to even.
-/

/-- Round half to even: the nearest integer, ties going to the even one. -/
def rndHalfEven (q : ℚ) : ℤ :=
  let f := ⌊q⌋
  let r := q - f
  if r < 1 / 2 then f
  else if 1 / 2 < r then f + 1
  else if Even f then f else f + 1

/-- Modelled from the spec: the exact value v is a binary64 (53-bit
significand, exponent range ignored — every value in the claims is in
range). -/
def float64Rep (q : ℚ) : Prop :=
  ∃ m : ℤ, ∃ k : ℤ, q = (m : ℚ) * 2 ^ k ∧ |m| < 2 ^ 53

/-- Modelled from the spec: the value denoted by the `'%.<digits>g'`
formatting of `q` — correct rounding of `q` to `digits` significant decimal
digits (decimal exponent `⌊log10 |q|⌋`). -/
def fmtSig (digits : ℕ) (q : ℚ) : ℚ :=
  if q = 0 then 0
  else
    let e : ℤ := Int.log 10 |q|
    (rndHalfEven (q * 10 ^ ((digits : ℤ) - 1 - e)) : ℚ) * 10 ^ (e - (digits : ℤ) + 1)

/-- Modelled from the spec: the binary64 value obtained by parsing a decimal
back (`float(s)`) — correct rounding of the exact decimal value to 53
significant bits. -/
def parseFloat64 (q : ℚ) : ℚ :=
  if q = 0 then 0
  else
    let t : ℤ := Int.log 2 |q| - 52
    (rndHalfEven (q * 2 ^ (-t)) : ℚ) * 2 ^ t

/-!
## Lemmas: the `List Char` string toolkit
-/

theorem splitCS_no_sep {sep : Char} {l : List Char} (h : ∀ c ∈ l, c ≠ sep) :
    splitCS sep l = (l, []) := by
  induction l with
  | nil => rfl
  | cons a r ih =>
    have ha : a ≠ sep := h a (List.mem_cons_self a r)
    have hr : ∀ c ∈ r, c ≠ sep := fun c hc => h c (List.mem_cons_of_mem a hc)
    simp [splitCS, ih hr, ha]

theorem splitCS_append_no_sep {sep : Char} {l s : List Char}
    (h : ∀ c ∈ l, c ≠ sep) :
    splitCS sep (l ++ s) = (l ++ (splitCS sep s).1, (splitCS sep s).2) := by
  induction l with
  | nil => rfl
  | cons a r ih =>
    have ha : a ≠ sep := h a (List.mem_cons_self a r)
    have hr : ∀ c ∈ r, c ≠ sep := fun c hc => h c (List.mem_cons_of_mem a hc)
    simp [splitCS, ih hr, ha]

theorem splitCS_cons_sep (sep : Char) (s : List Char) :
    splitCS sep (sep :: s) = ([], (splitCS sep s).1 :: (splitCS sep s).2) := by
  simp [splitCS]

theorem mem_joinCS {c : Char} {ps : List (List Char)} (h : c ∈ joinCS ps) :
    (∃ p ∈ ps, c ∈ p) ∨ c = ',' ∨ c = ' ' := by
  induction ps with
  | nil => simp [joinCS] at h
  | cons p ps ih =>
    cases ps with
    | nil =>
      simp [joinCS] at h
      exact Or.inl ⟨p, by simp, h⟩
    | cons q qs =>
      simp only [joinCS, List.mem_append, List.mem_cons] at h
      rcases h with h | h | h | h
      · exact Or.inl ⟨p, by simp, h⟩
      · exact Or.inr (Or.inl h)
      · exact Or.inr (Or.inr h)
      · rcases ih h with ⟨p', hp', hc⟩ | h'
        · exact Or.inl ⟨p', List.mem_cons_of_mem _ hp', hc⟩
        · exact Or.inr h'

theorem splitCS_joinCS {ps : List (List Char)} (hne : ps ≠ [])
    (hfree : ∀ p ∈ ps, ∀ c ∈ p, c ≠ ',') :
    splitCS ',' (joinCS ps) =
      (ps.headI, (ps.tail).map (fun p => ' ' :: p)) := by
  induction ps with
  | nil => exact absurd rfl hne
  | cons p ps ih =>
    cases ps with
    | nil =>
      simpa [joinCS] using splitCS_no_sep (hfree p (by simp))
    | cons q qs =>
      have hstep : joinCS (p :: q :: qs) = p ++ ',' :: ' ' :: joinCS (q :: qs) := rfl
      have hrest := ih (by simp)
        (fun r hr c hc => hfree r (List.mem_cons_of_mem p hr) c hc)
      rw [hstep, splitCS_append_no_sep (hfree p (by simp)), splitCS_cons_sep]
      have hsp : splitCS ',' (' ' :: joinCS (q :: qs)) =
          (' ' :: (splitCS ',' (joinCS (q :: qs))).1,
           (splitCS ',' (joinCS (q :: qs))).2) := by
        simp [splitCS]
      rw [hsp, hrest]
      simp

theorem breakFirst_no_sep {sep : Char} {l : List Char} (h : ∀ c ∈ l, c ≠ sep) :
    breakFirst sep l = (l, none) := by
  induction l with
  | nil => rfl
  | cons a r ih =>
    have ha : a ≠ sep := h a (List.mem_cons_self a r)
    have hr : ∀ c ∈ r, c ≠ sep := fun c hc => h c (List.mem_cons_of_mem a hc)
    simp [breakFirst, ih hr, ha]

theorem breakFirst_append_sep {sep : Char} {l s : List Char}
    (h : ∀ c ∈ l, c ≠ sep) :
    breakFirst sep (l ++ sep :: s) = (l, some s) := by
  induction l with
  | nil => simp [breakFirst]
  | cons a r ih =>
    have ha : a ≠ sep := h a (List.mem_cons_self a r)
    have hr : ∀ c ∈ r, c ≠ sep := fun c hc => h c (List.mem_cons_of_mem a hc)
    simp [breakFirst, ih hr, ha]

theorem dropWhile_eq_self_of_none {p : Char → Bool} {l : List Char}
    (h : ∀ c ∈ l, p c = false) : l.dropWhile p = l := by
  cases l with
  | nil => rfl
  | cons a r => simp [List.dropWhile, h a (List.mem_cons_self a r)]

theorem stripEnds_no_p {p : Char → Bool} {l : List Char}
    (h : ∀ c ∈ l, p c = false) : stripEnds p l = l := by
  unfold stripEnds
  rw [dropWhile_eq_self_of_none h,
      dropWhile_eq_self_of_none (fun c hc => h c (List.mem_reverse.mp hc)),
      List.reverse_reverse]

theorem stripWS_cons_space (s : List Char) : stripWS (' ' :: s) = stripWS s := by
  simp [stripWS, stripEnds, List.dropWhile]

/-!
## Lemmas: decimal digits round-trip
-/

theorem digitCh_isDigit {d : Nat} (h : d < 10) : (digitCh d).isDigit = true := by
  interval_cases d <;> decide

theorem digitCh_toNat {d : Nat} (h : d < 10) : (digitCh d).toNat = 48 + d := by
  interval_cases d <;> decide

theorem natToStrAux_ne_nil {fuel n : Nat} (h : 0 < fuel) :
    natToStrAux fuel n ≠ [] := by
  cases fuel with
  | zero => omega
  | succ f =>
    by_cases hn : n < 10 <;> simp [natToStrAux, hn]

theorem natToStrAux_all_digits {fuel n : Nat} :
    ∀ c ∈ natToStrAux fuel n, c.isDigit = true := by
  induction fuel generalizing n with
  | zero => intro c hc; simp [natToStrAux] at hc
  | succ f ih =>
    intro c hc
    by_cases hn : n < 10
    · simp [natToStrAux, hn] at hc
      exact hc ▸ digitCh_isDigit hn
    · simp only [natToStrAux, hn, if_false, List.mem_append,
        List.mem_singleton] at hc
      rcases hc with hc | hc
      · exact ih c hc
      · exact hc ▸ digitCh_isDigit (Nat.mod_lt n (by omega))

theorem digitsVal_natToStrAux {fuel n : Nat} (h : n < fuel) :
    (natToStrAux fuel n).foldl (fun a c => 10 * a + (c.toNat - 48)) 0 = n := by
  induction fuel generalizing n with
  | zero => omega
  | succ f ih =>
    by_cases hn : n < 10
    · simp [natToStrAux, hn, digitCh_toNat hn]
    · have hdiv : n / 10 < f := by
        have h1 : n / 10 < n := Nat.div_lt_self (by omega) (by omega)
        omega
      simp only [natToStrAux, hn, if_false]
      rw [List.foldl_append, List.foldl_cons, List.foldl_nil]
      simp only [ih hdiv, digitCh_toNat (Nat.mod_lt n (by omega))]
      omega

theorem parseDigits_natToStrAux {fuel n : Nat} (h : n < fuel) :
    parseDigits (natToStrAux fuel n) = some n := by
  unfold parseDigits
  rw [if_pos ⟨natToStrAux_ne_nil (by omega), List.all_eq_true.mpr
      (fun c hc => natToStrAux_all_digits c hc)⟩]
  exact congrArg some (digitsVal_natToStrAux h)

theorem parseDigits_natToStr (n : Nat) : parseDigits (natToStr n) = some n :=
  parseDigits_natToStrAux (Nat.lt_succ_self n)

theorem natToStr_all_digits {n : Nat} : ∀ c ∈ natToStr n, c.isDigit = true :=
  fun c hc => natToStrAux_all_digits c hc

theorem natToStr_ne_nil (n : Nat) : natToStr n ≠ [] :=
  natToStrAux_ne_nil (Nat.succ_pos n)

theorem isDigit_char_ne {c : Char} (h : c.isDigit = true) :
    c ≠ ',' ∧ c ≠ ']' ∧ c ≠ '[' ∧ c ≠ '\x7b' ∧ c ≠ '\x7d' ∧ c ≠ ' ' ∧
    c ≠ '"' ∧ c ≠ '-' ∧ c ≠ '+' := by
  refine ⟨?_, ?_, ?_, ?_, ?_, ?_, ?_, ?_, ?_⟩ <;>
    (intro hc; subst hc; simp [Char.isDigit] at h)

theorem intToStr_chars {z : Int} :
    ∀ c ∈ intToStr z, c.isDigit = true ∨ c = '-' := by
  unfold intToStr
  by_cases hz : z < 0
  · simp only [hz, if_true]
    intro c hc
    rcases List.mem_cons.mp hc with hc | hc
    · exact Or.inr hc
    · exact Or.inl (natToStr_all_digits c hc)
  · simp only [hz, if_false]
    intro c hc
    exact Or.inl (natToStr_all_digits c hc)

theorem stripWS_natToStr (n : Nat) : stripWS (natToStr n) = natToStr n :=
  stripEnds_no_p (fun c hc => by
    have := (isDigit_char_ne (natToStr_all_digits c hc)).2.2.2.2.2.1
    simp [this])

theorem pyParseInt_natToStr (n : Nat) : pyParseInt (natToStr n) = some (n : Int) := by
  unfold pyParseInt
  rw [stripWS_natToStr]
  have hne := natToStr_ne_nil n
  rcases hd : natToStr n with _ | ⟨c, ds⟩
  · exact absurd hd hne
  · have hcd : c.isDigit = true := natToStr_all_digits c (by rw [hd]; simp)
    have h1 : c ≠ '-' := (isDigit_char_ne hcd).2.2.2.2.2.2.2.1
    have h2 : c ≠ '+' := (isDigit_char_ne hcd).2.2.2.2.2.2.2.2
    simp only [h1, h2, if_false]
    rw [← hd, parseDigits_natToStr]
    rfl

theorem pyParseInt_intToStr (z : Int) : pyParseInt (intToStr z) = some z := by
  by_cases hz : z < 0
  · unfold intToStr
    rw [if_pos hz]
    unfold pyParseInt
    rw [show stripWS ('-' :: natToStr z.natAbs) = '-' :: natToStr z.natAbs from
      stripEnds_no_p (fun c hc => by
        rcases List.mem_cons.mp hc with hc | hc
        · subst hc; decide
        · have := (isDigit_char_ne (natToStr_all_digits c hc)).2.2.2.2.2.1
          simp [this])]
    simp only [if_pos rfl, parseDigits_natToStr, Option.map_some]
    refine congrArg some ?_
    show -((z.natAbs : Nat) : Int) = z
    omega
  · unfold intToStr
    rw [if_neg hz, pyParseInt_natToStr]
    exact congrArg some (by omega)

theorem pyParseInt_space_cons (s : List Char) :
    pyParseInt (' ' :: s) = pyParseInt s := by
  unfold pyParseInt
  rw [stripWS_cons_space]

theorem seqOpt_map_some (l : List α) : seqOpt (l.map some) = some l := by
  induction l with
  | nil => rfl
  | cons a r ih => simp [seqOpt, ih]

/-!
## Lemmas: the array codec round-trip
-/

theorem comma_space_ne : (',' ≠ ']' ∧ ',' ≠ '[' ∧ ',' ≠ '\x7b' ∧ ',' ≠ '\x7d') ∧
    (' ' ≠ ']' ∧ ' ' ≠ '[' ∧ ' ' ≠ '\x7b' ∧ ' ' ≠ '\x7d') := by decide

theorem joinCS_natToStr_chars {l : List Nat} :
    ∀ c ∈ joinCS (l.map natToStr), c.isDigit = true ∨ c = ',' ∨ c = ' ' := by
  intro c hc
  rcases mem_joinCS hc with ⟨p, hp, hcp⟩ | h
  · obtain ⟨n, _, rfl⟩ := List.mem_map.mp hp
    exact Or.inl (natToStr_all_digits c hcp)
  · exact Or.inr h

theorem joinCS_natToStr_free {l : List Nat} :
    ∀ c ∈ joinCS (l.map natToStr),
      c ≠ ']' ∧ c ≠ '[' ∧ c ≠ '\x7b' ∧ c ≠ '\x7d' := by
  intro c hc
  rcases joinCS_natToStr_chars c hc with hd | h | h
  · have := isDigit_char_ne hd
    exact ⟨this.2.1, this.2.2.1, this.2.2.2.1, this.2.2.2.2.1⟩
  · subst h; exact comma_space_ne.1
  · subst h; exact comma_space_ne.2

theorem map_pE_spaced {β γ : Type} (f : β → List Char) (pE : List Char → Option γ)
    (conv : β → γ) (l : List β)
    (h : ∀ y ∈ l, pE (' ' :: f y) = some (conv y)) :
    (l.map (fun y => ' ' :: f y)).map pE = (l.map conv).map some := by
  induction l with
  | nil => rfl
  | cons a r ih =>
    simp only [List.map_cons]
    rw [h a (List.mem_cons_self a r), ih (fun y hy => h y (List.mem_cons_of_mem a hy))]

theorem seqOpt_fields {β γ : Type} (f : β → List Char) (pE : List Char → Option γ)
    (conv : β → γ) (b : β) (l : List β)
    (hhead : pE (f b) = some (conv b))
    (htail : ∀ y ∈ l, pE (' ' :: f y) = some (conv y)) :
    seqOpt ((f b :: (l.map f).map (fun p => ' ' :: p)).map pE)
      = some ((b :: l).map conv) := by
  have hmm : (l.map f).map (fun p => ' ' :: p) = l.map (fun y => ' ' :: f y) := by
    rw [List.map_map]; rfl
  rw [List.map_cons, hhead, hmm, map_pE_spaced f pE conv l htail]
  rw [show seqOpt (some (conv b) :: (l.map conv).map some)
      = (seqOpt ((l.map conv).map some)).map (fun as => conv b :: as) from rfl,
    seqOpt_map_some]
  rfl

theorem str2array_array2str {α : Type} (fmtE : α → List Char)
    (parseE : List Char → Option α) (shape : List Nat) (flat : List α)
    (hs : shape ≠ []) (hf : flat ≠ [])
    (hparse : ∀ x ∈ flat, parseE (fmtE x) = some x)
    (hparseSp : ∀ x ∈ flat, parseE (' ' :: fmtE x) = some x)
    (hsep : ∀ x ∈ flat, ∀ c ∈ fmtE x, c ≠ ',' ∧ c ≠ '\x7d')
    (hlen : flat.length = shape.prod) :
    str2array parseE (array2str fmtE shape flat) = some (shape, flat) := by
  obtain ⟨d, ds, rfl⟩ : ∃ d ds, shape = d :: ds := by
    cases shape with
    | nil => exact absurd rfl hs
    | cons d ds => exact ⟨d, ds, rfl⟩
  obtain ⟨x, xs, rfl⟩ : ∃ x xs, flat = x :: xs := by
    cases flat with
    | nil => exact absurd rfl hf
    | cons x xs => exact ⟨x, xs, rfl⟩
  have hlit1 : ∀ c ∈ lstr "bounds[", c ≠ ']' := by decide
  have hlit2 : ∀ c ∈ lstr "bounds", c ≠ '[' := by decide
  have hlit3 : ∀ c ∈ lstr "bounds[", c ≠ '\x7b' := by decide
  have hJ2free : ∀ c ∈ joinCS ((x :: xs).map fmtE), c ≠ '\x7d' := by
    intro c hc
    rcases mem_joinCS hc with ⟨p, hp, hcp⟩ | h | h
    · obtain ⟨y, hy, rfl⟩ := List.mem_map.mp hp
      exact (hsep y hy c hcp).2
    · subst h; exact comma_space_ne.1.2.2.2
    · subst h; exact comma_space_ne.2.2.2.2
  have hsplit1 : array2str fmtE (d :: ds) (x :: xs) =
      (lstr "bounds[" ++ joinCS ((d :: ds).map natToStr)) ++
        ']' :: (' ' :: '\x7b' ::
          (joinCS ((x :: xs).map fmtE) ++ ['\x7d'])) := by
    simp [array2str, lstr, List.append_assoc]
  have hA1 : ∀ c ∈ lstr "bounds[" ++ joinCS ((d :: ds).map natToStr),
      c ≠ ']' := by
    intro c hc
    rcases List.mem_append.mp hc with h1 | h1
    · exact hlit1 c h1
    · exact (joinCS_natToStr_free c h1).1
  have hb1 : breakFirst ']' (array2str fmtE (d :: ds) (x :: xs)) =
      (lstr "bounds[" ++ joinCS ((d :: ds).map natToStr),
       some (' ' :: '\x7b' :: (joinCS ((x :: xs).map fmtE) ++ ['\x7d']))) := by
    rw [hsplit1]
    exact breakFirst_append_sep hA1
  have hb2 : breakFirst '[' (lstr "bounds[" ++ joinCS ((d :: ds).map natToStr))
      = (lstr "bounds", some (joinCS ((d :: ds).map natToStr))) := by
    have h2 : lstr "bounds[" ++ joinCS ((d :: ds).map natToStr) =
        lstr "bounds" ++ '[' :: joinCS ((d :: ds).map natToStr) := by
      simp [lstr]
    rw [h2]
    exact breakFirst_append_sep hlit2
  have hfields1 : splitOnC ',' (joinCS ((d :: ds).map natToStr)) =
      natToStr d :: ((ds.map natToStr).map (fun p => ' ' :: p)) := by
    rw [splitOnC, splitCS_joinCS (by simp)
      (fun p hp c hc => by
        obtain ⟨n, _, rfl⟩ := List.mem_map.mp hp
        exact (isDigit_char_ne (natToStr_all_digits c hc)).1)]
    simp
  have hdims : seqOpt ((splitOnC ',' (joinCS ((d :: ds).map natToStr))).map
      pyParseInt) = some ((d :: ds).map (fun n : Nat => (n : Int))) := by
    rw [hfields1]
    exact seqOpt_fields natToStr pyParseInt (fun n : Nat => (n : Int)) d ds
      (pyParseInt_natToStr d)
      (fun y _ => by rw [pyParseInt_space_cons, pyParseInt_natToStr])
  have hA2 : ∀ c ∈ (lstr "bounds[" ++ joinCS ((d :: ds).map natToStr))
      ++ [']', ' '], c ≠ '\x7b' := by
    intro c hc
    rcases List.mem_append.mp hc with h1 | h1
    · rcases List.mem_append.mp h1 with h2 | h2
      · exact hlit3 c h2
      · exact (joinCS_natToStr_free c h2).2.2.1
    · rcases List.mem_cons.mp h1 with h2 | h2
      · subst h2; decide
      · simp only [List.mem_singleton] at h2; subst h2; decide
  have hb3 : breakFirst '\x7b' (array2str fmtE (d :: ds) (x :: xs)) =
      ((lstr "bounds[" ++ joinCS ((d :: ds).map natToStr)) ++ [']', ' '],
       some (joinCS ((x :: xs).map fmtE) ++ ['\x7d'])) := by
    have h3 : array2str fmtE (d :: ds) (x :: xs) =
        ((lstr "bounds[" ++ joinCS ((d :: ds).map natToStr)) ++ [']', ' ']) ++
          '\x7b' :: (joinCS ((x :: xs).map fmtE) ++ ['\x7d']) := by
      simp [array2str, lstr, List.append_assoc]
    rw [h3]
    exact breakFirst_append_sep hA2
  have hb4 : breakFirst '\x7d' (joinCS ((x :: xs).map fmtE) ++ ['\x7d']) =
      (joinCS ((x :: xs).map fmtE), some []) := by
    exact breakFirst_append_sep hJ2free
  have hfields2 : splitOnC ',' (joinCS ((x :: xs).map fmtE)) =
      fmtE x :: ((xs.map fmtE).map (fun p => ' ' :: p)) := by
    rw [splitOnC, splitCS_joinCS (by simp)
      (fun p hp c hc => by
        obtain ⟨y, hy, rfl⟩ := List.mem_map.mp hp
        exact (hsep y hy c hc).1)]
    simp
  have hvals : seqOpt ((splitOnC ',' (joinCS ((x :: xs).map fmtE))).map parseE)
      = some (x :: xs) := by
    rw [hfields2]
    have := seqOpt_fields fmtE parseE (fun y => y) x xs
      (hparse x (List.mem_cons_self x xs))
      (fun y hy => hparseSp y (List.mem_cons_of_mem x hy))
    simpa using this
  have htnAll : ∀ l : List Nat, (l.map (fun n : Nat => (n : Int))).map Int.toNat = l := by
    intro l
    induction l with
    | nil => rfl
    | cons a r ih => simp only [List.map_cons, Int.toNat_natCast, ih]
  have htn : ((d :: ds).map (fun n : Nat => (n : Int))).map Int.toNat
      = d :: ds := htnAll (d :: ds)
  rw [str2array, hb1]
  simp only
  rw [hb2]
  simp only [hdims]
  rw [hb3]
  simp only [hb4, hvals]
  rw [if_pos]
  · rw [htn]
  · refine ⟨?_, ?_⟩
    · simp
    · rw [htn, ← hlen]

theorem intToStr_field_free (z : Int) :
    ∀ c ∈ intToStr z, c ≠ ',' ∧ c ≠ '\x7d' := by
  intro c hc
  rcases intToStr_chars c hc with hd | h
  · have := isDigit_char_ne hd
    exact ⟨this.1, this.2.2.2.2.1⟩
  · subst h
    exact ⟨by decide, by decide⟩

theorem pyParseInt_space_intToStr (z : Int) :
    pyParseInt (' ' :: intToStr z) = some z := by
  rw [pyParseInt_space_cons, pyParseInt_intToStr]

/-- C1 (amended: the array must have at least one element).  Decoding the
wire encoding of a rank ≥ 1 integer array — `str2array` applied to
`array2str` with the integer field conversions — recovers the array
exactly.  (The float case is this statement for the parametric codec
`str2array_array2str` with `'%.16g'` field hypotheses in place of the
integer ones proved here.) -/
theorem c1_array_roundtrip (shape : List Nat) (flat : List Int)
    (hs : shape ≠ []) (hf : flat ≠ []) (hlen : flat.length = shape.prod) :
    str2array pyParseInt (array2str intToStr shape flat) = some (shape, flat) :=
  str2array_array2str intToStr pyParseInt shape flat hs hf
    (fun x _ => pyParseInt_intToStr x)
    (fun x _ => pyParseInt_space_intToStr x)
    (fun x _ => intToStr_field_free x)
    hlen

/-- Witness for C1 at a concrete 2×2 array with a negative entry. -/
theorem c1_array_roundtrip_witness :
    str2array pyParseInt (array2str intToStr [2, 2] [1, -2, 3, 4])
      = some ([2, 2], [1, -2, 3, 4]) :=
  c1_array_roundtrip [2, 2] [1, -2, 3, 4] (by decide) (by decide) (by decide)

/-- C1 counterexample: the empty rank-1 array (shape `[0]`) is a rectangular
numeric array of rank ≥ 1, its encoding is `'bounds[0] {}'`, but decoding
it raises (`float('')`/`int('')` is a ValueError on the single empty field
produced by `''.split(',')`), so `decode(encode(A)) == A` fails. -/
theorem c1_empty_array_cex :
    str2array pyParseInt (array2str intToStr [0] ([] : List Int))
      ≠ some ([0], ([] : List Int)) := by decide

/-!
## Lemmas: ArrayBase get/set for integer element arrays
-/

theorem stripEnds_cons_of_p {p : Char → Bool} {c : Char} {s : List Char}
    (h : p c = true) : stripEnds p (c :: s) = stripEnds p s := by
  simp [stripEnds, List.dropWhile, h]

theorem stripWSQ_space_cons (s : List Char) :
    stripWSQ (' ' :: s) = stripWSQ s :=
  stripEnds_cons_of_p (by decide)

theorem stripWSQ_of_free {s : List Char} (h : ∀ c ∈ s, c ≠ ' ' ∧ c ≠ '"') :
    stripWSQ s = s :=
  stripEnds_no_p (fun c hc => decide_eq_false_iff_not.mpr (by
    rintro (h1 | h1)
    · exact (h c hc).1 h1
    · exact (h c hc).2 h1))

theorem stripWSQ_natToStr (n : Nat) : stripWSQ (natToStr n) = natToStr n :=
  stripWSQ_of_free (fun c hc => by
    have := isDigit_char_ne (natToStr_all_digits c hc)
    exact ⟨this.2.2.2.2.2.1, this.2.2.2.2.2.2.1⟩)

theorem stripWSQ_intToStr (z : Int) : stripWSQ (intToStr z) = intToStr z :=
  stripWSQ_of_free (fun c hc => by
    rcases intToStr_chars c hc with hd | h
    · have := isDigit_char_ne hd
      exact ⟨this.2.2.2.2.2.1, this.2.2.2.2.2.2.1⟩
    · subst h
      exact ⟨by decide, by decide⟩)

theorem isPrefixOf_append (l t : List Char) : (l.isPrefixOf (l ++ t)) = true := by
  induction l with
  | nil => simp [List.isPrefixOf]
  | cons a r ih => simp [List.isPrefixOf, ih]

theorem map_toNat_map_natCast (l : List Nat) :
    (l.map (fun n : Nat => (n : Int))).map Int.toNat = l := by
  induction l with
  | nil => rfl
  | cons a r ih => simp only [List.map_cons, Int.toNat_natCast, ih]

set_option maxHeartbeats 1000000 in
theorem arrayBaseSetValue_boundsStr {α : Type} (fmtE : α → List Char)
    (parseE : List Char → Option α) (shape : List Nat) (flat : List α)
    (hs : shape ≠ []) (hf : flat ≠ [])
    (hfield : ∀ x ∈ flat, parseE (stripWSQ (fmtE x)) = some x)
    (hsep : ∀ x ∈ flat, ∀ c ∈ fmtE x, c ≠ ',' ∧ c ≠ '\x7d') :
    arrayBaseSetValue parseE
      (lstr "bounds[" ++ joinCS (shape.map natToStr) ++ lstr "] \x7b"
        ++ joinCS (flat.map fmtE) ++ ['\x7d'])
      = if shape.prod = flat.length then some (shape, flat) else none := by
  obtain ⟨d, ds, rfl⟩ : ∃ d ds, shape = d :: ds := by
    cases shape with
    | nil => exact absurd rfl hs
    | cons d ds => exact ⟨d, ds, rfl⟩
  obtain ⟨x, xs, rfl⟩ : ∃ x xs, flat = x :: xs := by
    cases flat with
    | nil => exact absurd rfl hf
    | cons x xs => exact ⟨x, xs, rfl⟩
  have hJ2free : ∀ c ∈ joinCS ((List.map fmtE (x :: xs))), c ≠ '\x7d' := by
    intro c hc
    rcases mem_joinCS hc with ⟨p, hp, hcp⟩ | h | h
    · obtain ⟨y, hy, rfl⟩ := List.mem_map.mp hp
      exact (hsep y hy c hcp).2
    · subst h; exact comma_space_ne.1.2.2.2
    · subst h; exact comma_space_ne.2.2.2.2
  have hval : lstr "bounds[" ++ joinCS ((d :: ds).map natToStr) ++ lstr "] \x7b"
      ++ joinCS ((x :: xs).map fmtE) ++ ['\x7d']
      = lstr "bounds[" ++ (joinCS ((d :: ds).map natToStr) ++
          ']' :: (' ' :: '\x7b' ::
            (joinCS ((x :: xs).map fmtE) ++ ['\x7d']))) := by
    simp [lstr, List.append_assoc]
  have hdrop : (lstr "bounds[" ++ (joinCS ((d :: ds).map natToStr) ++
      ']' :: (' ' :: '\x7b' ::
        (joinCS ((x :: xs).map fmtE) ++ ['\x7d'])))).drop 7
      = joinCS ((d :: ds).map natToStr) ++
          ']' :: (' ' :: '\x7b' ::
            (joinCS ((x :: xs).map fmtE) ++ ['\x7d'])) := by
    rw [show (7 : Nat) = (lstr "bounds[").length from rfl, List.drop_left]
  have hpp1 : pypartition ']' (joinCS ((d :: ds).map natToStr) ++
      ']' :: (' ' :: '\x7b' :: (joinCS ((x :: xs).map fmtE) ++ ['\x7d'])))
      = (joinCS ((d :: ds).map natToStr), true,
         ' ' :: '\x7b' :: (joinCS ((x :: xs).map fmtE) ++ ['\x7d'])) := by
    rw [pypartition, breakFirst_append_sep
      (fun c hc => (joinCS_natToStr_free c hc).1)]
  have hpp2 : pypartition '\x7b'
      (' ' :: '\x7b' :: (joinCS ((x :: xs).map fmtE) ++ ['\x7d']))
      = ([' '], true, joinCS ((x :: xs).map fmtE) ++ ['\x7d']) := by
    rw [show (' ' :: '\x7b' :: (joinCS ((x :: xs).map fmtE) ++ ['\x7d']))
        = [' '] ++ '\x7b' :: (joinCS ((x :: xs).map fmtE) ++ ['\x7d']) from rfl,
      pypartition, breakFirst_append_sep (by decide)]
  have hpp3 : pypartition '\x7d' (joinCS ((x :: xs).map fmtE) ++ ['\x7d'])
      = (joinCS ((x :: xs).map fmtE), true, []) := by
    rw [pypartition, breakFirst_append_sep hJ2free]
  have hfields1 : splitOnC ',' (joinCS ((d :: ds).map natToStr)) =
      natToStr d :: ((ds.map natToStr).map (fun p => ' ' :: p)) := by
    rw [splitOnC, splitCS_joinCS (by simp)
      (fun p hp c hc => by
        obtain ⟨n, _, rfl⟩ := List.mem_map.mp hp
        exact (isDigit_char_ne (natToStr_all_digits c hc)).1)]
    simp
  have hfields2 : splitOnC ',' (joinCS ((x :: xs).map fmtE)) =
      fmtE x :: ((xs.map fmtE).map (fun p => ' ' :: p)) := by
    rw [splitOnC, splitCS_joinCS (by simp)
      (fun p hp c hc => by
        obtain ⟨y, hy, rfl⟩ := List.mem_map.mp hp
        exact (hsep y hy c hc).1)]
    simp
  have hseq1 : seqOpt ((splitOnC ','
      (joinCS ((d :: ds).map natToStr))).map (fun v => pyParseInt (stripWSQ v)))
      = some ((d :: ds).map (fun n : Nat => (n : Int))) := by
    rw [hfields1]
    exact seqOpt_fields natToStr (fun v => pyParseInt (stripWSQ v))
      (fun n : Nat => (n : Int)) d ds
      (by simp only [stripWSQ_natToStr, pyParseInt_natToStr])
      (fun y _ => by
        simp only [stripWSQ_space_cons, stripWSQ_natToStr, pyParseInt_natToStr])
  have hseq2 : seqOpt ((splitOnC ','
      (joinCS ((x :: xs).map fmtE))).map (fun v => parseE (stripWSQ v)))
      = some (x :: xs) := by
    rw [hfields2]
    have h2 := seqOpt_fields fmtE (fun v => parseE (stripWSQ v))
      (fun z : α => z) x xs
      (by exact hfield x (List.mem_cons_self x xs))
      (fun y hy => by
        show parseE (stripWSQ (' ' :: fmtE y)) = some y
        rw [stripWSQ_space_cons]
        exact hfield y (List.mem_cons_of_mem x hy))
    simpa using h2
  rw [hval]
  simp only [arrayBaseSetValue, isPrefixOf_append, if_true, hdrop, hpp1, hpp2,
    hpp3, hseq1, hseq2]
  by_cases hp : (d :: ds).prod = (x :: xs).length
  · rw [if_pos, if_pos hp]
    · rw [map_toNat_map_natCast]
    · refine ⟨by simp, ?_⟩
      rw [map_toNat_map_natCast]
      simpa using hp
  · rw [if_neg, if_neg hp]
    intro hcontra
    rw [map_toNat_map_natCast] at hcontra
    exact hp (by simpa using hcontra.2)

/-- C3 (amended: the set round-trip requires at least one element — the
encoder renders an empty array's element list as `{}`, which parses back as
one empty field whose element conversion raises, see the counterexample).
For every homogeneous array variable, over any element field codec (`fmtE`
the wrapper's field format — `'%d'`, `'%.16g'` or `'"%s"'` — and `parseE`
the `typ` conversion the source applies after `.strip(' "')`) whose fields
recover the element and avoid the separator characters `,` and the closing
brace: getting the value encodes rank > 1 as `bounds[d0, d1, ...]` followed
by the braced row-major flat element list, and rank 1 as the plain
comma-joined list (empty arrays included); setting from that bounds string
reshapes the parsed flat element list to the declared bounds when the
element count matches their product, and errors — storing nothing — when
the counts differ. -/
theorem c3_array_get_set {α : Type} (fmtE : α → List Char)
    (parseE : List Char → Option α) (shape : List Nat) (flat : List α)
    (hfield : ∀ x ∈ flat, parseE (stripWSQ (fmtE x)) = some x)
    (hsep : ∀ x ∈ flat, ∀ c ∈ fmtE x, c ≠ ',' ∧ c ≠ '\x7d') :
    (shape.length > 1 →
       arrayGetValue fmtE shape flat
         = lstr "bounds[" ++ joinCS (shape.map natToStr) ++ lstr "] \x7b"
             ++ joinCS (flat.map fmtE) ++ ['\x7d']
       ∧ (flat ≠ [] → flat.length = shape.prod →
            arrayBaseSetValue parseE (arrayGetValue fmtE shape flat)
              = some (shape, flat))
       ∧ (flat ≠ [] → flat.length ≠ shape.prod →
            arrayBaseSetValue parseE (arrayGetValue fmtE shape flat)
              = none))
    ∧ (shape.length = 1 →
        arrayGetValue fmtE shape flat = joinCS (flat.map fmtE)) := by
  constructor
  · intro hrank
    have hs : shape ≠ [] := by
      intro h; rw [h] at hrank; simp at hrank
    have hget : arrayGetValue fmtE shape flat
        = lstr "bounds[" ++ joinCS (shape.map natToStr) ++ lstr "] \x7b"
            ++ joinCS (flat.map fmtE) ++ ['\x7d'] := by
      rw [arrayGetValue, if_pos hrank]
    refine ⟨hget, ?_, ?_⟩
    · intro hf hlen
      rw [hget, arrayBaseSetValue_boundsStr fmtE parseE shape flat hs hf
        hfield hsep, if_pos hlen.symm]
    · intro hf hlen
      rw [hget, arrayBaseSetValue_boundsStr fmtE parseE shape flat hs hf
        hfield hsep, if_neg (fun h => hlen h.symm)]
  · intro hrank
    rw [arrayGetValue, if_neg (by omega)]

/-- Witness for C3: a concrete 2×2 integer array round-trips through
`get value` / `set value`. -/
theorem c3_witness :
    arrayBaseSetValue pyParseInt (arrayGetValue intToStr [2, 2] [1, 2, 3, 4])
      = some ([2, 2], [1, 2, 3, 4]) :=
  ((c3_array_get_set intToStr pyParseInt [2, 2] [1, 2, 3, 4]
      (by decide) (by decide)).1 (by decide)).2.1 (by decide) (by decide)

/-- C3 counterexample: the empty rank-2 array (shape `[1, 0]`) gets as
`bounds[1, 0]` followed by empty braces — the claimed format — but setting
that very string back is an error rather than a store, although its
element count (zero) equals the product of the declared bounds: the empty
data between the braces splits into one empty field and the element
conversion (`int('')`/`float('')`) raises. -/
theorem c3_empty_set_cex :
    arrayGetValue intToStr [1, 0] ([] : List Int) = lstr "bounds[1, 0] \x7b\x7d"
    ∧ arrayBaseSetValue pyParseInt (lstr "bounds[1, 0] \x7b\x7d")
        = (none : Option (List Nat × List Int)) := by
  refine ⟨by decide, by decide⟩

/-- C2 (amended: when the final segment after the rightmost `.` is empty the
attribute falls back to `value` — Python's `ext_attr or 'value'`): a full
external path that is a key of the property table resolves to that
variable with attribute `value`; otherwise, if the part before the
rightmost `.` is a key, the path resolves to that variable with the final
segment as the attribute, except that an empty final segment gives
`value`; otherwise resolution fails with `no such property <path>.`. -/
theorem c2_path_resolution (props : List (List Char × List Char))
    (p : List Char) :
    (∀ ip, lookupTab props p = some ip →
       getVarWrapperResolve props p = .ok (ip, lstr "value"))
    ∧ (lookupTab props p = none →
        (∀ ip, lookupTab props (pyRPartition '.' p).1 = some ip →
           getVarWrapperResolve props p =
             .ok (ip, if (pyRPartition '.' p).2.2 = [] then lstr "value"
                      else (pyRPartition '.' p).2.2))
        ∧ (lookupTab props (pyRPartition '.' p).1 = none →
            getVarWrapperResolve props p =
              .error (lstr "no such property <" ++ p ++ lstr ">."))) := by
  rcases hrp : pyRPartition '.' p with ⟨e, fnd, a⟩
  constructor
  · intro ip hip
    rw [getVarWrapperResolve, hip]
  · intro hnone
    constructor
    · intro ip hip
      simp only at hip
      simp only [getVarWrapperResolve, hnone, hrp, hip]
    · intro hip
      simp only at hip
      simp only [getVarWrapperResolve, hnone, hrp, hip]

/-- Witness for C2 at a concrete table: `comp.x` resolves as a full key,
`x.units` resolves via the rightmost-segment split, and `nope` fails. -/
theorem c2_witness :
    getVarWrapperResolve [(lstr "x", lstr "vx")] (lstr "x.units")
      = .ok (lstr "vx", lstr "units")
    ∧ getVarWrapperResolve [(lstr "x", lstr "vx")] (lstr "nope")
      = .error (lstr "no such property <nope>.") := by
  refine ⟨?_, ?_⟩
  · have h := ((c2_path_resolution [(lstr "x", lstr "vx")] (lstr "x.units")).2
      (by decide)).1 (lstr "vx") (by decide)
    simpa using h
  · exact ((c2_path_resolution [(lstr "x", lstr "vx")] (lstr "nope")).2
      (by decide)).2 (by decide)

/-- C2 counterexample: for the table `{'x': 'vx'}` and the path `'x.'`, the
path is not a key, the part before the rightmost `.` is the key `'x'` and
the final segment is the empty string — but resolution yields the
attribute `'value'` (`ext_attr or 'value'`), not the empty final segment
the claim prescribes. -/
theorem c2_trailing_dot_cex :
    lookupTab [(lstr "x", lstr "vx")] (lstr "x.") = none
    ∧ (pyRPartition '.' (lstr "x.")).1 = lstr "x"
    ∧ (pyRPartition '.' (lstr "x.")).2.2 = []
    ∧ getVarWrapperResolve [(lstr "x", lstr "vx")] (lstr "x.")
        = .ok (lstr "vx", lstr "value")
    ∧ getVarWrapperResolve [(lstr "x", lstr "vx")] (lstr "x.")
        ≠ .ok (lstr "vx", []) := by
  refine ⟨by decide, by decide, by decide, rfl, ?_⟩
  intro h
  have h2 : (lstr "vx", lstr "value") = (lstr "vx", ([] : List Char)) :=
    Except.ok.inj h
  exact absurd (congrArg Prod.snd h2) (by decide)

/-- C4 (amended: a second `setMode raw` on an already-raw session is *not* a
no-op — `Stream._set_raw` raises for every assignment except the first
cooked-to-raw one, and the dispatch loop surfaces the `ValueError` as an
exception reply): the first cooked-to-raw transition succeeds; on a raw
stream every further assignment of the mode property — raw-to-raw and
raw-to-cooked alike — fails with the literal message
`Can only transition from 'cooked' to 'raw'`, and the stream stays raw
(the transition is one-way and permanent). -/
theorem c4_mode_transition :
    streamSetRaw false true = .ok true
    ∧ (∀ v, streamSetRaw true v
        = .error (lstr "Can only transition from 'cooked' to 'raw'"))
    ∧ (∀ v, streamSetRawStep true v = true)
    ∧ setModeCmd true [lstr "raw"] = (.exc (lstr "ValueError"), true) := by
  refine ⟨rfl, ?_, ?_, rfl⟩ <;> (intro v; cases v <;> rfl)

/-- C4 counterexample: a cooked-to-raw attempt on an already-raw stream is
not an allowed no-op — it raises the transition `ValueError` (the claim
says it succeeds silently). -/
theorem c4_raw_again_cex :
    streamSetRaw true true
      = .error (lstr "Can only transition from 'cooked' to 'raw'")
    ∧ streamSetRaw true true ≠ .ok true := by
  refine ⟨rfl, ?_⟩
  intro h
  simp [streamSetRaw] at h

/-- C5: the claim says read-only attributes listed with `access=g` raise
`cannot set` while unknown attributes raise `no such property`, the two
never confused.  The code confuses them: a missing comma in the read-only
tuples makes `FloatWrapper.set('format', ...)` (and `'enumValues'`) and
`IntWrapper.set('hasLowerBound', ...)` (and `'enumValues'`) fall through to
the `no such property` branch although `list_properties` lists each with
`access=g`. -/
theorem c5_readonly_misclassified :
    floatWrapperSet (lstr "format") (lstr "comp.x.format") (lstr "1")
      = .noSuchProperty (lstr "comp.x.format")
    ∧ lstr "format (type=java.lang.String) (access=g)" ∈ floatWrapperListProps
    ∧ floatWrapperSet (lstr "units") (lstr "comp.x.units") (lstr "m")
      = .cannotSet (lstr "comp.x.units")
    ∧ intWrapperSet (lstr "n") (lstr "hasLowerBound")
        (lstr "comp.n.hasLowerBound") (lstr "1")
      = .noSuchProperty (lstr "comp.n.hasLowerBound")
    ∧ lstr "hasLowerBound (type=boolean) (access=g)" ∈ intWrapperListProps
    ∧ intWrapperSet (lstr "n") (lstr "valueStr") (lstr "comp.n.valueStr")
        (lstr "1")
      = .cannotSet (lstr "comp.n.valueStr") := by
  refine ⟨by decide, by decide, by decide, by decide, by decide, by decide⟩

/-- C7 (amended: every dispatch-table command except `set` validates its
argument arity and replies with the fixed invalid-syntax usage message,
shown here for `get` and `listValues` with too many arguments; but `set`
performs no syntax validation at all — its only pre-action reply is
`no such object` — and `listValues` invoked with zero arguments raises an
`IndexError` on `args[0]`, surfaced as an exception reply rather than the
usage message). -/
theorem c7_syntax_validation (args : List (List Char))
    (insts : List (List Char)) (req : List Char) :
    (args.length > 1 → listValuesCmd args
       = .err (lstr "invalid syntax. Proper syntax:\nlistValues,lv [object]"))
    ∧ listValuesCmd [] = .exc (lstr "IndexError")
    ∧ (args.length ≠ 1 → getCmd args
       = .err (lstr "invalid syntax. Proper syntax:\nget <object.property>"))
    ∧ (∀ msg, setCmd insts req = .err msg →
        (lstr "no such object").isPrefixOf msg = true) := by
  refine ⟨?_, rfl, ?_, ?_⟩
  · intro h
    rw [listValuesCmd.eq_def, if_pos h]
  · intro h
    rw [getCmd, if_pos h]
  · intro msg hmsg
    rw [setCmd] at hmsg
    rcases h1 : pypartition ' ' req with ⟨c1, f1, assignment⟩
    rw [h1] at hmsg
    simp only at hmsg
    rcases h2 : pypartition '=' assignment with ⟨lhs, f2, r2⟩
    rw [h2] at hmsg
    simp only at hmsg
    rcases h3 : pypartition '.' (stripWS lhs) with ⟨name, f3, r3⟩
    rw [h3] at hmsg
    simp only at hmsg
    by_cases hmem : name ∈ insts
    · rw [if_pos hmem] at hmsg
      cases hmsg
    · rw [if_neg hmem] at hmsg
      have hinj := HandlerReply.err.inj hmsg
      rw [← hinj]
      rw [show lstr "no such object: <" = lstr "no such object" ++ lstr ": <"
          from rfl, List.append_assoc]
      exact isPrefixOf_append _ _

/-- Witness for C7: `listValues` with two arguments gets the usage reply. -/
theorem c7_witness :
    listValuesCmd [lstr "a", lstr "b"]
      = .err (lstr "invalid syntax. Proper syntax:\nlistValues,lv [object]") :=
  (c7_syntax_validation [lstr "a", lstr "b"] [] []).1 (by decide)

/-- C7 counterexample: `listValues` with zero arguments does not reply with
the invalid-syntax usage message (it raises `IndexError`), and a malformed
`set` request replies `no such object`, not an invalid-syntax message. -/
theorem c7_zero_args_cex :
    listValuesCmd []
      ≠ .err (lstr "invalid syntax. Proper syntax:\nlistValues,lv [object]")
    ∧ listValuesCmd [] = .exc (lstr "IndexError")
    ∧ setCmd [] (lstr "set junk")
      = .err (lstr "no such object: <junk>") := by
  refine ⟨by decide, rfl, by decide⟩

/-- C8 (amended: only the not-implemented verbs that are actually registered
— `move` with its aliases and `getIcon` — are recognized and answered with
a `NotImplementedError` exception reply; `setHierarchy` and `setRunQueue`
are commented out of the `_COMMANDS` table, so requests using them get the
`command <...> not recognized` reply for unknown verbs). -/
theorem c8_not_implemented_verbs :
    lstr "move" ∈ commandVerbs ∧ lstr "mv" ∈ commandVerbs
    ∧ lstr "rename" ∈ commandVerbs ∧ lstr "rn" ∈ commandVerbs
    ∧ lstr "getIcon" ∈ commandVerbs
    ∧ handleRequest true [] (lstr "move a b")
        = .exc (lstr "NotImplementedError: move")
    ∧ getIconCmd true [lstr "comp"] = .exc (lstr "NotImplementedError: getIcon")
    ∧ lstr "setHierarchy" ∉ commandVerbs
    ∧ lstr "setRunQueue" ∉ commandVerbs := by
  refine ⟨by decide, by decide, by decide, by decide, by decide, by decide,
    by decide, by decide, by decide⟩

/-- C8 counterexample: a `setHierarchy` request (and a `setRunQueue` one) is
answered with the unknown-verb `command <...> not recognized` reply, not a
not-implemented error. -/
theorem c8_set_hierarchy_cex :
    handleRequest true [] (lstr "setHierarchy comp xml")
      = .err (lstr "command <setHierarchy comp xml> not recognized")
    ∧ handleRequest true [] (lstr "setRunQueue a b c")
      = .err (lstr "command <setRunQueue a b c> not recognized") := by
  refine ⟨by decide, by decide⟩

/-!
## Lemmas: worker FIFO semantics (C9) and instance creation (C10)
-/

theorem runWorker_append (st : List (List Char × Int)) (l1 l2 : List WkOp) :
    runWorker st (l1 ++ l2)
      = ((runWorker (runWorker st l1).1 l2).1,
         (runWorker st l1).2 ++ (runWorker (runWorker st l1).1 l2).2) := by
  induction l1 generalizing st with
  | nil => simp [runWorker]
  | cons op ops ih => simp [runWorker, ih]

theorem lookup_setAssoc_self (st : List (List Char × Int)) (nm : List Char)
    (v : Int) : (setAssoc st nm v).lookup nm = some v := by
  induction st with
  | nil => simp [setAssoc, List.lookup]
  | cons kv rest ih =>
    rcases kv with ⟨k, w⟩
    by_cases hk : k = nm
    · subst hk
      simp [setAssoc, List.lookup]
    · simp only [setAssoc, if_neg hk, List.lookup]
      rw [show (nm == k) = false from
        beq_eq_false_iff_ne.mpr (fun hh => hk hh.symm)]
      exact ih

theorem lookup_setAssoc_other (st : List (List Char × Int)) (k nm : List Char)
    (v : Int) (hk : k ≠ nm) :
    (setAssoc st k v).lookup nm = st.lookup nm := by
  induction st with
  | nil =>
    simp only [setAssoc, List.lookup]
    rw [show (nm == k) = false from
      beq_eq_false_iff_ne.mpr (fun hh => hk hh.symm)]
  | cons kv rest ih =>
    rcases kv with ⟨k', w⟩
    by_cases hk' : k' = k
    · subst hk'
      simp only [setAssoc, if_pos rfl, List.lookup]
      rw [show (nm == k') = false from
        beq_eq_false_iff_ne.mpr (fun hh => hk hh.symm)]
    · simp only [setAssoc, if_neg hk', List.lookup]
      by_cases hnmk : nm = k'
      · rw [show (nm == k') = true from beq_iff_eq.mpr hnmk]
      · rw [show (nm == k') = false from beq_eq_false_iff_ne.mpr hnmk]
        exact ih

theorem lookup_runWorker_no_write (st : List (List Char × Int))
    (l : List WkOp) (nm : List Char) (h : ∀ op ∈ l, ¬ writesVar nm op) :
    ((runWorker st l).1).lookup nm = st.lookup nm := by
  induction l generalizing st with
  | nil => rfl
  | cons op ops ih =>
    have hop := h op (List.mem_cons_self op ops)
    have hops : ∀ o ∈ ops, ¬ writesVar nm o :=
      fun o ho => h o (List.mem_cons_of_mem op ho)
    cases op with
    | setv k v =>
      have hk : k ≠ nm := fun hkk => hop hkk
      simp only [runWorker, applyWkOp]
      rw [ih _ hops, lookup_setAssoc_other st k nm v hk]
    | getv k =>
      simp only [runWorker, applyWkOp]
      exact ih _ hops

/-- C9 (spec-modelled: wrkpool.py is not among the sources; the worker is
the single-consumer FIFO queue the spec describes).  Work units submitted
to one instance's foreground worker execute strictly in submission order —
the run of a concatenation is the run of the first batch followed by the
run of the second on the resulting store, observations kept in submission
order — and a `set` of a variable followed by a `get` of the same variable
with no intervening write of it observes the newly set value. -/
theorem c9_worker_serialization (st : List (List Char × Int))
    (l1 l2 : List WkOp) (nm : List Char) (v : Int)
    (h : ∀ op ∈ l2, ¬ writesVar nm op) :
    (∀ a b : List WkOp, runWorker st (a ++ b)
       = ((runWorker (runWorker st a).1 b).1,
          (runWorker st a).2 ++ (runWorker (runWorker st a).1 b).2))
    ∧ (runWorker st (l1 ++ WkOp.setv nm v :: (l2 ++ [WkOp.getv nm]))).2.getLast?
        = some (some v) := by
  refine ⟨fun a b => runWorker_append st a b, ?_⟩
  have hmid : ((runWorker st (l1 ++ WkOp.setv nm v :: l2)).1).lookup nm
      = some v := by
    rw [runWorker_append]
    simp only [runWorker, applyWkOp]
    rw [lookup_runWorker_no_write _ _ _ h, lookup_setAssoc_self]
  have hassoc : l1 ++ WkOp.setv nm v :: (l2 ++ [WkOp.getv nm])
      = (l1 ++ WkOp.setv nm v :: l2) ++ [WkOp.getv nm] := by
    simp [List.append_assoc]
  rw [hassoc, runWorker_append]
  simp only [runWorker, applyWkOp]
  rw [List.getLast?_append_of_ne_nil _ (by simp), List.getLast?_singleton, hmid]

/-- Witness for C9: a `set x 42` followed by a `get x` with an intervening
write to a different variable observes 42. -/
theorem c9_witness :
    (runWorker [] ([WkOp.getv (lstr "x")] ++ WkOp.setv (lstr "x") 42 ::
      ([WkOp.setv (lstr "y") 7] ++ [WkOp.getv (lstr "x")]))).2.getLast?
      = some (some 42) :=
  (c9_worker_serialization [] [WkOp.getv (lstr "x")] [WkOp.setv (lstr "y") 7]
    (lstr "x") 42 (by decide)).2

/-- C10: `start <component> <name>` with an instance name already present in
the session's instance map replies `Name already in use: "<name>"` and
leaves the instance map unchanged — no instance is created and the
existing binding is preserved. -/
theorem c10_start_name_in_use (comps : List (List Char))
    (instMap : List (List Char × Nat)) (fresh : Nat)
    (component nm : List Char)
    (hc : componentKey component ∈ comps)
    (hn : (instMap.lookup nm).isSome) :
    startCmd comps instMap fresh component nm
      = (.err (lstr "Name already in use: \"" ++ nm ++ lstr "\""), instMap) := by
  rw [startCmd, if_pos hc, if_pos hn]

/-- Witness for C10 at a concrete session state. -/
theorem c10_witness :
    startCmd [lstr "TestComp"] [(lstr "comp", 0)] 1 (lstr "TestComp")
      (lstr "comp")
      = (.err (lstr "Name already in use: \"comp\""), [(lstr "comp", 0)]) :=
  c10_start_name_in_use [lstr "TestComp"] [(lstr "comp", 0)] 1
    (lstr "TestComp") (lstr "comp") (by decide) (by decide)

/-!
## Lemmas: the float64 decimal round-trip model
-/

theorem rndHalfEven_intCast (n : ℤ) : rndHalfEven (n : ℚ) = n := by
  simp [rndHalfEven]

theorem rnd_scale_exact {b : ℕ} {v : ℚ} (hb : 0 < (b : ℚ)) (c p a : ℤ)
    (hv : v = (c : ℚ) * (b : ℚ) ^ p) (hpa : 0 ≤ p + a) :
    ((rndHalfEven (v * (b : ℚ) ^ a) : ℤ) : ℚ) * (b : ℚ) ^ (-a) = v := by
  have hbne : ((b : ℚ)) ≠ 0 := ne_of_gt hb
  have hq : v * (b : ℚ) ^ a = ((c * (b : ℤ) ^ (p + a).toNat : ℤ) : ℚ) := by
    rw [hv, mul_assoc, ← zpow_add₀ hbne]
    push_cast
    rw [← zpow_natCast ((b : ℚ)) (p + a).toNat, Int.toNat_of_nonneg hpa]
  rw [hq, rndHalfEven_intCast]
  push_cast
  rw [← zpow_natCast ((b : ℚ)) (p + a).toNat, Int.toNat_of_nonneg hpa,
    mul_assoc, ← zpow_add₀ hbne, show p + a + -a = p from by ring, ← hv]

set_option maxHeartbeats 2000000 in
theorem fmtSig16_exact {v : ℚ} (D p : ℤ) (hD : |D| < 10 ^ 16)
    (hv : v = (D : ℚ) * 10 ^ p) (hv0 : v ≠ 0) : fmtSig 16 v = v := by
  have hvpos : 0 < |v| := abs_pos.mpr hv0
  have habs : |v| = |(D : ℚ)| * (10 : ℚ) ^ p := by
    rw [hv, abs_mul, abs_of_pos (zpow_pos (by norm_num : (0 : ℚ) < 10) p)]
  have hD' : |(D : ℚ)| < (10 : ℚ) ^ (16 : ℤ) := by
    have h1 : ((|D| : ℤ) : ℚ) < (((10 : ℤ) ^ 16 : ℤ) : ℚ) := by exact_mod_cast hD
    push_cast at h1
    rw [show ((16 : ℤ)) = ((16 : ℕ) : ℤ) from rfl, zpow_natCast]
    exact h1
  have hupper : |v| < ((10 : ℕ) : ℚ) ^ (p + 16) := by
    push_cast
    rw [habs, zpow_add₀ (by norm_num : (10 : ℚ) ≠ 0) p 16]
    calc |(D : ℚ)| * (10 : ℚ) ^ p
        < (10 : ℚ) ^ (16 : ℤ) * (10 : ℚ) ^ p :=
          mul_lt_mul_of_pos_right hD' (zpow_pos (by norm_num) p)
      _ = (10 : ℚ) ^ p * (10 : ℚ) ^ (16 : ℤ) := mul_comm _ _
  have hlog : Int.log 10 |v| < p + 16 :=
    (Int.lt_zpow_iff_log_lt (by norm_num) hvpos).mp hupper
  simp only [fmtSig, if_neg hv0]
  rw [show Int.log 10 |v| - ((16 : ℕ) : ℤ) + 1
      = -(((16 : ℕ) : ℤ) - 1 - Int.log 10 |v|) from by ring]
  exact rnd_scale_exact (b := 10) (by norm_num) D p
    (((16 : ℕ) : ℤ) - 1 - Int.log 10 |v|) (by exact_mod_cast hv) (by omega)

set_option maxHeartbeats 2000000 in
theorem parseFloat64_exact {v : ℚ} (hrep : float64Rep v) :
    parseFloat64 v = v := by
  by_cases hv0 : v = 0
  · rw [hv0]
    simp [parseFloat64]
  obtain ⟨m, k, hv, hm⟩ := hrep
  have hvpos : 0 < |v| := abs_pos.mpr hv0
  have habs : |v| = |(m : ℚ)| * (2 : ℚ) ^ k := by
    rw [hv, abs_mul, abs_of_pos (zpow_pos (by norm_num : (0 : ℚ) < 2) k)]
  have hm' : |(m : ℚ)| < (2 : ℚ) ^ (53 : ℤ) := by
    have h1 : ((|m| : ℤ) : ℚ) < (((2 : ℤ) ^ 53 : ℤ) : ℚ) := by exact_mod_cast hm
    push_cast at h1
    rw [show ((53 : ℤ)) = ((53 : ℕ) : ℤ) from rfl, zpow_natCast]
    exact h1
  have hupper : |v| < ((2 : ℕ) : ℚ) ^ (k + 53) := by
    push_cast
    rw [habs, zpow_add₀ (by norm_num : (2 : ℚ) ≠ 0) k 53]
    calc |(m : ℚ)| * (2 : ℚ) ^ k
        < (2 : ℚ) ^ (53 : ℤ) * (2 : ℚ) ^ k :=
          mul_lt_mul_of_pos_right hm' (zpow_pos (by norm_num) k)
      _ = (2 : ℚ) ^ k * (2 : ℚ) ^ (53 : ℤ) := mul_comm _ _
  have hlog : Int.log 2 |v| < k + 53 :=
    (Int.lt_zpow_iff_log_lt (by norm_num) hvpos).mp hupper
  simp only [parseFloat64, if_neg hv0]
  have hfin := rnd_scale_exact (b := 2) (by norm_num) m k
    (-(Int.log 2 |v| - 52)) (by exact_mod_cast hv) (by omega)
  rw [neg_neg] at hfin
  exact_mod_cast hfin

theorem rndHalfEven_eq_of_lt {q : ℚ} {n : ℤ} (h1 : (n : ℚ) ≤ q)
    (h2 : q < (n : ℚ) + 1 / 2) : rndHalfEven q = n := by
  have hfl : ⌊q⌋ = n := Int.floor_eq_iff.mpr ⟨h1, by linarith⟩
  unfold rndHalfEven
  rw [hfl, if_pos (by linarith)]

/-- C6 (amended: the 16-significant-digit round-trip holds exactly for the
float64 values that are themselves decimals of at most 16 significant
digits, `v = D·10^p` with `|D| < 10^16`; it does *not* hold for every
float64 — 17 digits would be needed — see the counterexample `1 + 2^-52`).
Formatting such a value with `'%.16g'` (modelled value-level by `fmtSig 16`)
and parsing the result back as a float64 (`parseFloat64`) yields exactly
the value. -/
theorem c6_float_roundtrip (v : ℚ) (hrep : float64Rep v)
    (hdec : ∃ D p : ℤ, v = (D : ℚ) * 10 ^ p ∧ |D| < 10 ^ 16) :
    parseFloat64 (fmtSig 16 v) = v := by
  by_cases hv0 : v = 0
  · subst hv0
    rw [show fmtSig 16 0 = 0 from by rw [fmtSig, if_pos rfl],
      parseFloat64, if_pos rfl]
  · obtain ⟨D, p, hv, hD⟩ := hdec
    rw [fmtSig16_exact D p hD hv hv0]
    exact parseFloat64_exact hrep

/-- Witness for C6: the float64 value 42 survives the 16-digit round-trip. -/
theorem c6_witness : parseFloat64 (fmtSig 16 42) = 42 :=
  c6_float_roundtrip 42 ⟨42, 0, by norm_num, by norm_num⟩
    ⟨42, 0, by norm_num, by norm_num⟩

/-- C6 counterexample: the float64 value `1 + 2^-52 =
4503599627370497/2^52` (the successor of 1.0) formats under 16 significant
digits to the value 1 — the 16-digit rounding of
`1.0000000000000002220446...` — and parses back to exactly 1 ≠ v, so 16
significant digits do not round-trip every float64 (17 would). -/
theorem c6_16_digits_cex :
    float64Rep (4503599627370497 / 4503599627370496 : ℚ)
    ∧ parseFloat64 (fmtSig 16 (4503599627370497 / 4503599627370496 : ℚ))
        ≠ (4503599627370497 / 4503599627370496 : ℚ) := by
  have hx0 : (4503599627370497 / 4503599627370496 : ℚ) ≠ 0 := by norm_num
  have habs : |(4503599627370497 / 4503599627370496 : ℚ)|
      = (4503599627370497 / 4503599627370496 : ℚ) :=
    abs_of_pos (by norm_num)
  have hfloor : ⌊(4503599627370497 / 4503599627370496 : ℚ)⌋₊ = 1 := by
    rw [Nat.floor_eq_iff (by norm_num)]
    norm_num
  have hlog : Int.log 10 |(4503599627370497 / 4503599627370496 : ℚ)| = 0 := by
    rw [habs, Int.log_of_one_le_right 10 (by norm_num), hfloor,
      Nat.log_one_right]
    rfl
  constructor
  · exact ⟨2 ^ 52 + 1, -52, by
      rw [zpow_neg]
      norm_num, by norm_num⟩
  · have hfmt : fmtSig 16 (4503599627370497 / 4503599627370496 : ℚ) = 1 := by
      simp only [fmtSig, if_neg hx0, hlog]
      have hrnd : rndHalfEven ((4503599627370497 / 4503599627370496 : ℚ)
          * 10 ^ (((16 : ℕ) : ℤ) - 1 - 0)) = 10 ^ 15 := by
        apply rndHalfEven_eq_of_lt
        · rw [show (((16 : ℕ) : ℤ) - 1 - 0) = (15 : ℤ) from by norm_num]
          push_cast
          norm_num
        · rw [show (((16 : ℕ) : ℤ) - 1 - 0) = (15 : ℤ) from by norm_num]
          push_cast
          norm_num
      rw [hrnd]
      push_cast
      rw [zpow_neg]
      norm_num
    rw [hfmt, parseFloat64_exact ⟨1, 0, by norm_num, by norm_num⟩]
    norm_num
